import Mathlib

/-!
Shallow embedding of the karta task-execution core (Go) and proofs about it.

The embedding follows the current source variant of the repository: the
`Config` shape and `isConfigValid` of the config source (the variant with
`defaultMinWorkerNum`/`defaultMaxWorkerNum` and `DefaultMsgHandleFunc`),
the batch `Group` of `group.go` (the variant backed by the `internal`
package), the streaming `Pipeline` of `pipeline.go` (the variant with
`runningCount`, `tryCreateExecutor` and `workerLimit`), and the envelope
pools of `internal/pool.go`.

Go `nil`-able fields (interface values, function values, slices) are
modelled with `Option`; Go machine integers that only ever hold small
nonnegative values (slice indices) are modelled with `Nat`, and the
signed counters (`int`, `int64`) with `Int`.  Side-effecting callback
invocations are modelled as an explicit event trace.  Concurrency is
modelled as small-step transition relations whose steps are the atomic
operations of the source (mutex-guarded critical sections, single atomic
loads/stores/adds), so that interleavings of the Go scheduler correspond
to step sequences.
-/

namespace Karta

/-! ## Configuration (config source, current variant)

`defaultMinWorkerNum = 1`, `defaultMaxWorkerNum = math.MaxUint16 * 8 = 524280`.
`DefaultMsgHandleFunc` returns the message itself and a nil error.
A `Callback` interface value is either Go `nil` (`Option.none`), the
canonical no-op pair produced by `NewEmptyCallback` (`CallbackSlot.emptyCallback`),
or an opaque caller-supplied implementation (`CallbackSlot.user`). -/

/-- Go constant `defaultMinWorkerNum = int64(1)`. -/
def defaultMinWorkerNum : Int := 1

/-- Go constant `defaultMaxWorkerNum = int64(math.MaxUint16) * 8`. -/
def defaultMaxWorkerNum : Int := 65535 * 8

/-- A message handler `func(msg any) (any, error)`: payloads of type `α`,
errors of type `ε`; the returned error may be nil (`Option.none`). -/
def MessageHandleFunc (α ε : Type) : Type := α → α × Option ε

/-- Go `DefaultMsgHandleFunc = func(msg any) (any, error) { return msg, nil }`. -/
def DefaultMsgHandleFunc {α ε : Type} : MessageHandleFunc α ε := fun msg => (msg, none)

/-- A non-nil `Callback` interface value: either the canonical empty callback
(`NewEmptyCallback()`, whose two methods do nothing) or an opaque
user-supplied implementation. -/
inductive CallbackSlot (κ : Type) : Type where
  | emptyCallback : CallbackSlot κ
  | user (cb : κ) : CallbackSlot κ
deriving DecidableEq, Repr

/-- Go `Config`: worker count `num` (Go `int`), nil-able `callback`,
`result` flag, nil-able `handleFunc`. -/
structure Config (α ε κ : Type) : Type where
  num : Int
  callback : Option (CallbackSlot κ)
  result : Bool
  handleFunc : Option (MessageHandleFunc α ε)

/-- Go `NewConfig()`: `num = defaultMinWorkerNum`, callback
`NewEmptyCallback()`, handler `DefaultMsgHandleFunc` (and `result = false`,
the zero value). -/
def NewConfig {α ε κ : Type} : Config α ε κ :=
  { num := defaultMinWorkerNum
    callback := some .emptyCallback
    result := false
    handleFunc := some DefaultMsgHandleFunc }

/-- Go `DefaultConfig()` simply calls `NewConfig()`. -/
def DefaultConfig {α ε κ : Type} : Config α ε κ := NewConfig

/-- The field normalisation performed by `isConfigValid` on a non-nil
config: out-of-range `num` replaced by `defaultMinWorkerNum`, nil callback
by `NewEmptyCallback()`, nil handler by `DefaultMsgHandleFunc`;
field mutations happen in place on the caller's object. -/
def normalizeConfig {α ε κ : Type} (c : Config α ε κ) : Config α ε κ :=
  let c := if c.num ≤ 0 ∨ c.num > defaultMaxWorkerNum then
    { c with num := defaultMinWorkerNum } else c
  let c := if c.callback.isNone then { c with callback := some .emptyCallback } else c
  let c := if c.handleFunc.isNone then { c with handleFunc := some DefaultMsgHandleFunc } else c
  c

/-- Go `isConfigValid(conf *Config) *Config` as a value transformation:
a nil config is replaced by `DefaultConfig()`, a non-nil one has its
invalid fields overwritten with defaults. -/
def isConfigValid {α ε κ : Type} (conf : Option (Config α ε κ)) : Config α ε κ :=
  match conf with
  | some c => normalizeConfig c
  | none => DefaultConfig

/-! ### Pointer-level model of `isConfigValid` (for the in-place mutation claim)

Go passes `*Config`; `isConfigValid` mutates the pointee's fields and
returns the same pointer (or allocates a fresh default config for nil).
We model the heap of `Config` objects as a list indexed by references. -/

/-- A heap of `Config` objects; a reference is an index into the list. -/
abbrev ConfigHeap (α ε κ : Type) : Type := List (Config α ε κ)

/-- Pointer-level `isConfigValid`: for a non-nil reference the pointee is
overwritten in place (`List.set`) and the same reference is returned; for
nil a fresh `DefaultConfig` object is allocated. -/
def isConfigValidRef {α ε κ : Type} (h : ConfigHeap α ε κ) (r : Option Nat) :
    ConfigHeap α ε κ × Nat :=
  match r with
  | some i => (h.set i (normalizeConfig (h.getD i DefaultConfig)), i)
  | none => (h ++ [DefaultConfig], h.length)

/-- The part of a constructed `Group` relevant to configuration sharing:
`NewGroup` stores the pointer returned by `isConfigValid`. -/
structure GroupRef : Type where
  configRef : Nat

/-- `NewGroup(conf)`: validates the config and retains the returned pointer. -/
def NewGroupRef {α ε κ : Type} (h : ConfigHeap α ε κ) (r : Option Nat) :
    ConfigHeap α ε κ × GroupRef :=
  let p := isConfigValidRef h r
  (p.1, ⟨p.2⟩)

/-- The part of a constructed `Pipeline` relevant to configuration sharing. -/
structure PipelineRef : Type where
  configRef : Nat

/-- `NewPipeline(queue, config)`: returns nil for a nil queue; otherwise
validates the config and retains the returned pointer.  The external queue
is only checked for presence here, so it is modelled as `Option Unit`. -/
def NewPipelineRef {α ε κ : Type} (queue : Option Unit) (h : ConfigHeap α ε κ)
    (r : Option Nat) : Option (ConfigHeap α ε κ × PipelineRef) :=
  match queue with
  | none => none
  | some _ =>
    let p := isConfigValidRef h r
    some (p.1, ⟨p.2⟩)

/-! ## Batch mapper (`group.go`, current variant)

`Group.prepare` draws one envelope (`internal.Element`) per input from the
pool, stores the datum and its index, and fills the slot array
`gr.elements`.  `Group.execute` spawns `config.num` workers; each worker
loops: if the context is cancelled it exits (Go `select` always prefers a
ready case over `default`, so after cancellation no element is claimed);
otherwise, under the mutex, it exits if the slot array is empty, or pops
the front element (the slot is nilled and the array re-sliced), unlocks,
runs `OnBefore`, the handler, `OnAfter`, writes the result at the
element's index if `config.result` is set, and returns the envelope to
the pool.  After `wg.Wait()`, `execute` truncates `gr.elements` to length
zero (the remaining envelopes are dropped, not pool-returned) and returns
the result slice.  `Group.Map` returns nil at once for empty input.

The model below is a small-step system over these atomic sections:
`claim` is the mutex-guarded pop together with the `OnBefore` call that
immediately follows it, `finish` is the handler run with its `OnAfter`,
result write and pool `Put`, and `cancel` is `Stop`'s `gr.cancel()`.
Callback invocations are recorded as trace events. -/

/-- `internal.Element`: the batch task envelope, holding the datum and the
input index (`value`, Go `int64`, always a nonnegative slice index here). -/
structure Element (α : Type) : Type where
  data : α
  value : Nat
deriving DecidableEq, Repr

/-- One callback invocation: `OnBefore(msg)` or `OnAfter(msg, result, err)`. -/
inductive Event (α ε : Type) : Type where
  | onBefore (msg : α) : Event α ε
  | onAfter (msg : α) (result : α) (err : Option ε) : Event α ε
deriving DecidableEq, Repr

/-- The error carried by a callback event; `OnBefore` carries none. -/
def Event.err {α ε : Type} : Event α ε → Option ε
  | .onBefore _ => none
  | .onAfter _ _ e => e

/-- The mutable state of one `Map` call: the slot array `gr.elements`
(front = next to be claimed), the elements claimed but not yet finished,
the result slice (`none` when `config.result` is unset, mirroring the nil
slice), the pool `Get`/`Put` counters, the callback trace, and the
cancellation flag of `gr.ctx`. -/
structure ExecState (α ε : Type) : Type where
  elements : List (Element α)
  inFlight : List (Element α)
  results : Option (List (Option α))
  poolGets : Nat
  poolPuts : Nat
  trace : List (Event α ε)
  cancelled : Bool
deriving DecidableEq, Repr

/-- `Group.prepare`'s loop: envelopes for `inputs`, indexed from `start`. -/
def makeElements {α : Type} : List α → Nat → List (Element α)
  | [], _ => []
  | x :: xs, k => ⟨x, k⟩ :: makeElements xs (k + 1)

/-- State at the start of `Group.execute` after `Group.prepare` on
`inputs`: the slot array is filled (one pool `Get` per input), the result
slice is allocated (all nil) iff `collect`, and `cancelled` records
whether `Stop` already cancelled the group's context. -/
def groupInitState {α ε : Type} (collect : Bool) (cancelled : Bool) (inputs : List α) :
    ExecState α ε :=
  { elements := makeElements inputs 0
    inFlight := []
    results := if collect then some (List.replicate inputs.length none) else none
    poolGets := inputs.length
    poolPuts := 0
    trace := []
    cancelled := cancelled }

/-- One atomic step of `Group.execute` (handler `h`, `collect =
config.result`).  `claim`: a worker finds the context not cancelled, pops
the front slot under the mutex and calls `OnBefore`.  `finish`: a worker
that had claimed `e` runs the handler, calls `OnAfter`, writes
`results[e.value]` if collecting, and returns the envelope to the pool.
`cancel`: `Stop` cancels the context. -/
inductive GStep {α ε : Type} (h : MessageHandleFunc α ε) (collect : Bool) :
    ExecState α ε → ExecState α ε → Prop where
  | claim (s : ExecState α ε) (e : Element α) (rest : List (Element α)) :
      s.cancelled = false → s.elements = e :: rest →
      GStep h collect s
        { s with elements := rest
                 inFlight := s.inFlight ++ [e]
                 trace := s.trace ++ [Event.onBefore e.data] }
  | finish (s : ExecState α ε) (e : Element α) (l₁ l₂ : List (Element α)) :
      s.inFlight = l₁ ++ e :: l₂ →
      GStep h collect s
        { s with inFlight := l₁ ++ l₂
                 results := if collect then
                     s.results.map (fun r => r.set e.value (some (h e.data).1))
                   else s.results
                 trace := s.trace ++ [Event.onAfter e.data (h e.data).1 (h e.data).2]
                 poolPuts := s.poolPuts + 1 }
  | cancel (s : ExecState α ε) :
      s.cancelled = false →
      GStep h collect s { s with cancelled := true }

/-- All interleavings of the worker cohort: reflexive-transitive closure. -/
def GReachable {α ε : Type} (h : MessageHandleFunc α ε) (collect : Bool)
    (s t : ExecState α ε) : Prop :=
  Relation.ReflTransGen (GStep h collect) s t

/-- `wg.Wait()` has returned: every worker has exited its loop.  A worker
only exits with no claim in hand, and (absent cancellation) only on an
empty slot array. -/
def ExecDone {α ε : Type} (s : ExecState α ε) : Prop :=
  s.inFlight = [] ∧ (s.cancelled = true ∨ s.elements = [])

/-- The value `Group.execute` returns (`Group.Map` returns it unchanged
for non-empty input): the result slice, `none` for the nil slice. -/
def executeResult {α ε : Type} (s : ExecState α ε) : Option (List (Option α)) :=
  s.results

/-- The state after one worker claims the front element `e` and finishes
it, with no other worker active: exactly the composition of a `claim` and
a `finish` step. -/
def seqNext {α ε : Type} (h : MessageHandleFunc α ε) (collect : Bool)
    (s : ExecState α ε) (e : Element α) (rest : List (Element α)) : ExecState α ε :=
  { s with elements := rest
           inFlight := s.inFlight ++ []
           results := if collect then
               s.results.map (fun r => r.set e.value (some (h e.data).1))
             else s.results
           trace := (s.trace ++ [Event.onBefore e.data]) ++
             [Event.onAfter e.data (h e.data).1 (h e.data).2]
           poolPuts := s.poolPuts + 1 }

/-- A single worker's claim-then-finish of the front element, starting
from a state with an empty in-flight set: the deterministic sequential
schedule. -/
def seqRun {α ε : Type} (h : MessageHandleFunc α ε) (collect : Bool) :
    Nat → ExecState α ε → ExecState α ε
  | 0, s => s
  | fuel + 1, s =>
    match s.elements with
    | [] => s
    | e :: rest => seqRun h collect fuel (seqNext h collect s e rest)

/-! ## Streaming pipeline (`pipeline.go`, current variant; pools from `internal/pool.go`)

The submission path `Pipeline.submit` is modelled as a function on the
pipeline's state (the pool and the scaling counters), parameterized by the
behaviour the external queue collaborator exhibits for this call.  The
worker-scaling protocol (`tryCreateExecutor` racing with the executors'
idle decay) is modelled twice, at two granularities: once sequentially
(`tryCreateExecutorSeq`, used by the submit path, an uninterfered call),
and once as a small-step system (`CStep`) whose steps are the individual
atomic operations of the source, so that interleavings between concurrent
submitters and decaying workers are captured. -/

/-- `internal.ElementExt`: the streaming task envelope.  `data` is the Go
`any` payload (nil-able), `value` the Go `int64` (unused by the pipeline,
zero), `fn` the nil-able per-task handler override. -/
structure ElementExt (α ε : Type) : Type where
  data : Option α
  value : Int
  fn : Option (MessageHandleFunc α ε)

/-- `ElementExt.Reset`: clears all fields (including the handler slot). -/
def ElementExt.Reset {α ε : Type} (_ : ElementExt α ε) : ElementExt α ε :=
  { data := none, value := 0, fn := none }

/-- `internal.ElementExtPool`: `Get` hands out a stored (always reset)
envelope or allocates a zero-valued fresh one; `Put` resets the envelope
before storing it.  `gets`/`puts` count the calls. -/
structure ElementExtPool (α ε : Type) : Type where
  gets : Nat
  puts : Nat
  stored : List (ElementExt α ε)

/-- `ElementExtPool.Get`. -/
def ElementExtPool.Get {α ε : Type} (p : ElementExtPool α ε) :
    ElementExtPool α ε × ElementExt α ε :=
  match p.stored with
  | e :: rest => ({ p with gets := p.gets + 1, stored := rest }, e)
  | [] => ({ p with gets := p.gets + 1 }, { data := none, value := 0, fn := none })

/-- `ElementExtPool.Put`: `e.Reset()` then store. -/
def ElementExtPool.Put {α ε : Type} (p : ElementExtPool α ε) (e : ElementExt α ε) :
    ElementExtPool α ε :=
  { p with puts := p.puts + 1, stored := e.Reset :: p.stored }

/-- The behaviour the external queue collaborator exhibits for one
submission: its `IsClosed()` answer and the errors `Put`/`PutWithDelay`
would return (`none` = success). -/
structure QueueBehavior (ε : Type) : Type where
  isClosed : Bool
  putErr : Option ε
  putWithDelayErr : Option ε

/-- The error surface of the submission path: the single distinguished
`ErrorQueueClosed` value, or a queue error propagated verbatim. -/
inductive PipelineError (ε : Type) : Type where
  | errorQueueClosed : PipelineError ε
  | queueErr (e : ε) : PipelineError ε
deriving DecidableEq, Repr

/-- Go `ErrorQueueClosed = errors.New("pipeline is closed")`. -/
def ErrorQueueClosed {ε : Type} : PipelineError ε := .errorQueueClosed

/-- Pipeline state touched by the submission path: the envelope pool and
the scaling state (`runningCount`, the rate limiter's available tokens,
and the number of live executor goroutines). -/
structure PipelineState (α ε : Type) : Type where
  elementPool : ElementExtPool α ε
  runningCount : Int
  tokens : Nat
  liveWorkers : Nat

/-- Go constant `immediateDelay = 0`. -/
def immediateDelay : Int := 0

/-- Go constant `defaultMinWorkerCount = 1`. -/
def defaultMinWorkerCount : Int := 1

/-- Go `defaultWorkerBurstLimit = 8`. -/
def defaultWorkerBurstLimit : Nat := 8

/-- `Pipeline.tryCreateExecutor` as one uninterfered call: pre-check
`runningCount < num`, consume a limiter token, provisionally increment,
and roll back if the new count exceeds `num`, else spawn. -/
def tryCreateExecutorSeq {α ε : Type} (num : Int) (st : PipelineState α ε) :
    Bool × PipelineState α ε :=
  if st.runningCount ≥ num then (false, st)
  else if st.tokens = 0 then (false, st)
  else
    let st := { st with tokens := st.tokens - 1 }
    let newCount := st.runningCount + 1
    let st := { st with runningCount := newCount }
    if newCount > num then (false, { st with runningCount := st.runningCount - 1 })
    else (true, { st with liveWorkers := st.liveWorkers + 1 })

/-- `Pipeline.submit(handleFunc, message, delay)`: reject when the queue
is closed; otherwise draw an envelope from the pool, set its data and
handler; `PutWithDelay` when `delay > 0` else `Put`; on queue failure
return the envelope to the pool and propagate the error; on success run
`tryCreateExecutor`. -/
def Pipeline.submit {α ε : Type} (num : Int) (st : PipelineState α ε)
    (q : QueueBehavior ε) (handleFunc : Option (MessageHandleFunc α ε))
    (message : α) (delay : Int) :
    Option (PipelineError ε) × PipelineState α ε :=
  if q.isClosed then (some ErrorQueueClosed, st)
  else
    let pg := st.elementPool.Get
    let element := { pg.2 with data := some message, fn := handleFunc }
    let st := { st with elementPool := pg.1 }
    match (if delay > 0 then q.putWithDelayErr else q.putErr) with
    | some e => (some (.queueErr e), { st with elementPool := st.elementPool.Put element })
    | none => (none, (tryCreateExecutorSeq num st).2)

/-- `Pipeline.SubmitWithFunc(fn, msg)`. -/
def Pipeline.SubmitWithFunc {α ε : Type} (num : Int) (st : PipelineState α ε)
    (q : QueueBehavior ε) (fn : Option (MessageHandleFunc α ε)) (msg : α) :
    Option (PipelineError ε) × PipelineState α ε :=
  Pipeline.submit num st q fn msg immediateDelay

/-- `Pipeline.Submit(msg)`. -/
def Pipeline.Submit {α ε : Type} (num : Int) (st : PipelineState α ε)
    (q : QueueBehavior ε) (msg : α) : Option (PipelineError ε) × PipelineState α ε :=
  Pipeline.SubmitWithFunc num st q none msg

/-- `Pipeline.SubmitAfterWithFunc(fn, msg, delay)` (delay in milliseconds). -/
def Pipeline.SubmitAfterWithFunc {α ε : Type} (num : Int) (st : PipelineState α ε)
    (q : QueueBehavior ε) (fn : Option (MessageHandleFunc α ε)) (msg : α) (delay : Int) :
    Option (PipelineError ε) × PipelineState α ε :=
  Pipeline.submit num st q fn msg delay

/-- `Pipeline.SubmitAfter(msg, delay)`. -/
def Pipeline.SubmitAfter {α ε : Type} (num : Int) (st : PipelineState α ε)
    (q : QueueBehavior ε) (msg : α) (delay : Int) :
    Option (PipelineError ε) × PipelineState α ε :=
  Pipeline.SubmitAfterWithFunc num st q none msg delay

/-! ### Worker cohort protocol, small-step

State counters: `count` is the atomic `runningCount`; `workers` the live
executors in their normal loop; `exiting` the executors that have passed
the decay check (`runningCount.Load() > defaultMinWorkerCount`) and
returned but whose deferred `runningCount.Add(-1)` has not yet run;
`tokens` the limiter's available tokens; `atPre`/`atAllow`/`atAdd`/
`atRollback` the number of in-flight `tryCreateExecutor` calls whose next
operation is the pre-check load, `workerLimit.Allow()`, the provisional
`Add(1)`, or the rollback `Add(-1)`.  Each step is a single atomic
operation of the source. -/

/-- The scaling/decay counters of a running pipeline. -/
structure CohortState : Type where
  count : Int
  workers : Nat
  exiting : Nat
  tokens : Nat
  atPre : Nat
  atAllow : Nat
  atAdd : Nat
  atRollback : Nat
deriving DecidableEq, Repr

/-- `Pipeline.GetWorkerNumber()`: reads the atomic `runningCount`. -/
def GetWorkerNumber (s : CohortState) : Int := s.count

/-- Pipeline state right after `NewPipeline`: `runningCount.Store(1)`, one
executor goroutine, a full token bucket. -/
def cohortInit : CohortState :=
  { count := 1, workers := 1, exiting := 0, tokens := defaultWorkerBurstLimit
    atPre := 0, atAllow := 0, atAdd := 0, atRollback := 0 }

/-- One atomic operation of the worker-scaling protocol (before `Stop`).
`startSubmit`: a successful enqueue reaches `tryCreateExecutor`.
`preCheckFail`/`preCheckOk`: the `runningCount.Load()` pre-check.
`allowFail`/`allowOk`: `workerLimit.Allow()`.  `refill`: the token bucket
regains a token (rate 4/s, burst 8).  `addSpawn`: the provisional
`Add(1)` whose result is within `num`, followed by spawning the executor.
`addOver`: the provisional `Add(1)` whose result exceeds `num`.
`rollback`: the compensating `Add(-1)`.  `decayCheck`: an idle executor
(idle ≥ 10 s at a 3 s scan tick) loads `runningCount > 1` and returns.
`decayDone`: its deferred `runningCount.Add(-1)` runs. -/
inductive CStep (num : Int) : CohortState → CohortState → Prop where
  | startSubmit (s : CohortState) :
      CStep num s { s with atPre := s.atPre + 1 }
  | preCheckFail (s : CohortState) : 0 < s.atPre → s.count ≥ num →
      CStep num s { s with atPre := s.atPre - 1 }
  | preCheckOk (s : CohortState) : 0 < s.atPre → s.count < num →
      CStep num s { s with atPre := s.atPre - 1, atAllow := s.atAllow + 1 }
  | allowFail (s : CohortState) : 0 < s.atAllow → s.tokens = 0 →
      CStep num s { s with atAllow := s.atAllow - 1 }
  | allowOk (s : CohortState) : 0 < s.atAllow → 0 < s.tokens →
      CStep num s { s with atAllow := s.atAllow - 1, tokens := s.tokens - 1
                           atAdd := s.atAdd + 1 }
  | refill (s : CohortState) : s.tokens < defaultWorkerBurstLimit →
      CStep num s { s with tokens := s.tokens + 1 }
  | addSpawn (s : CohortState) : 0 < s.atAdd → s.count + 1 ≤ num →
      CStep num s { s with atAdd := s.atAdd - 1, count := s.count + 1
                           workers := s.workers + 1 }
  | addOver (s : CohortState) : 0 < s.atAdd → s.count + 1 > num →
      CStep num s { s with atAdd := s.atAdd - 1, count := s.count + 1
                           atRollback := s.atRollback + 1 }
  | rollback (s : CohortState) : 0 < s.atRollback →
      CStep num s { s with atRollback := s.atRollback - 1, count := s.count - 1 }
  | decayCheck (s : CohortState) : 0 < s.workers → s.count > defaultMinWorkerCount →
      CStep num s { s with workers := s.workers - 1, exiting := s.exiting + 1 }
  | decayDone (s : CohortState) : 0 < s.exiting →
      CStep num s { s with exiting := s.exiting - 1, count := s.count - 1 }

/-- Interleavings of submitters and decaying workers. -/
def CReachable (num : Int) (s t : CohortState) : Prop :=
  Relation.ReflTransGen (CStep num) s t

/-! ## Invariants used in the proofs -/

/-- Inductive invariant of a collecting `execute` run on `inputs`: some
prefix of length `k` has been claimed, so the slot array holds the
envelopes of the suffix from `k` on; every in-flight envelope carries an
already-claimed index with its original datum; and the result slice has
the input's length, every claimed index being either still in flight or
already holding the handler's result for that input element. -/
def GInv {α ε : Type} (h : MessageHandleFunc α ε) (inputs : List α)
    (s : ExecState α ε) : Prop :=
  ∃ k, k ≤ inputs.length ∧ s.elements = makeElements (inputs.drop k) k ∧
    (∀ e ∈ s.inFlight, inputs[e.value]? = some e.data ∧ e.value < k) ∧
    ∃ r, s.results = some r ∧ r.length = inputs.length ∧
      ∀ i x, inputs[i]? = some x → i < k →
        (⟨x, i⟩ : Element α) ∈ s.inFlight ∨ r[i]? = some (some (h x).1)

/-- Every recorded callback invocation is an `OnBefore` for some input
element, or an `OnAfter` for some input element carrying exactly the
handler's result and error for it. -/
def GTraceInv {α ε : Type} (h : MessageHandleFunc α ε) (inputs : List α)
    (s : ExecState α ε) : Prop :=
  ∀ ev ∈ s.trace, (∃ x, x ∈ inputs ∧ ev = Event.onBefore x) ∨
    ∃ x, x ∈ inputs ∧ ev = Event.onAfter x (h x).1 (h x).2

/-! ## Helper lemmas: the batch mapper -/

theorem makeElements_length {α : Type} (xs : List α) (k : Nat) :
    (makeElements xs k).length = xs.length := by
  induction xs generalizing k with
  | nil => rfl
  | cons x xs ih => simp [makeElements, ih]

theorem makeElements_eq_nil {α : Type} {xs : List α} {k : Nat}
    (hm : makeElements xs k = []) : xs = [] := by
  cases xs with
  | nil => rfl
  | cons x xs => simp [makeElements] at hm

theorem makeElements_drop_cons {α : Type} (inputs : List α) (k : Nat)
    (hk : k < inputs.length) :
    makeElements (inputs.drop k) k =
      (⟨inputs[k], k⟩ : Element α) :: makeElements (inputs.drop (k + 1)) (k + 1) := by
  rw [List.drop_eq_getElem_cons hk]
  rfl

theorem mem_of_getElem?_some {α : Type} {l : List α} {i : Nat} {x : α}
    (hx : l[i]? = some x) : x ∈ l := by
  obtain ⟨hlt, heq⟩ := List.getElem?_eq_some.mp hx
  exact heq ▸ List.getElem_mem hlt

/-- One `GStep` of a collecting run preserves both invariants. -/
theorem ginv_step {α ε : Type} {h : MessageHandleFunc α ε} {inputs : List α}
    {s t : ExecState α ε} (hst : GStep h true s t)
    (hi : GInv h inputs s) (htr : GTraceInv h inputs s) :
    GInv h inputs t ∧ GTraceInv h inputs t := by
  obtain ⟨k, hk, hel, hinf, r, hres, hrlen, hcov⟩ := hi
  cases hst with
  | claim e rest hc hels =>
    have hklt : k < inputs.length := by
      rcases Nat.lt_or_ge k inputs.length with hlt | hge
      · exact hlt
      · exfalso
        have hdrop : inputs.drop k = [] := List.drop_eq_nil_iff.mpr hge
        rw [hel, hdrop] at hels
        simp [makeElements] at hels
    have hcons := makeElements_drop_cons inputs k hklt
    rw [hel, hcons] at hels
    obtain ⟨hee, hrest⟩ := List.cons.injEq _ _ _ _ ▸ hels
    constructor
    · refine ⟨k + 1, hklt, ?_, ?_, r, hres, hrlen, ?_⟩
      · simpa using hrest.symm
      · intro e' he'
        simp only [List.mem_append, List.mem_singleton] at he'
        rcases he' with he' | he'
        · obtain ⟨h1, h2⟩ := hinf e' he'
          exact ⟨h1, Nat.lt_succ_of_lt h2⟩
        · subst he'
          rw [← hee]
          exact ⟨List.getElem?_eq_getElem hklt, Nat.lt_succ_self k⟩
      · intro i x hx hik
        rcases Nat.lt_succ_iff_lt_or_eq.mp hik with hik | hik
        · rcases hcov i x hx hik with hm | hr
          · exact Or.inl (List.mem_append_left _ hm)
          · exact Or.inr hr
        · subst hik
          have hx' : x = inputs[i] := by
            rw [List.getElem?_eq_getElem hklt] at hx
            exact (Option.some.injEq _ _ ▸ hx).symm ▸ rfl
          left
          apply List.mem_append_right
          simp [← hee, hx']
    · intro ev hev
      simp only [List.mem_append, List.mem_singleton] at hev
      rcases hev with hev | hev
      · exact htr ev hev
      · subst hev
        left
        refine ⟨e.data, ?_, rfl⟩
        have : e.data = inputs[k] := by rw [← hee]
        exact this ▸ List.getElem_mem hklt
  | finish e l₁ l₂ hinfs =>
    have hemem : e ∈ s.inFlight := by
      rw [hinfs]
      exact List.mem_append_right _ (List.mem_cons_self _ _)
    obtain ⟨hedata, helt⟩ := hinf e hemem
    have helen : e.value < r.length := by
      rw [hrlen]
      exact Nat.lt_of_lt_of_le helt hk
    constructor
    · refine ⟨k, hk, hel, ?_, r.set e.value (some (h e.data).1), ?_, ?_, ?_⟩
      · intro e' he'
        apply hinf
        rw [hinfs]
        simp only [List.mem_append, List.mem_cons] at he' ⊢
        tauto
      · simp [hres]
      · simp [hrlen]
      · intro i x hx hik
        rcases hcov i x hx hik with hm | hri
        · by_cases hie : (⟨x, i⟩ : Element α) = e
          · right
            have hiv : i = e.value := by rw [← hie]
            have hxd : x = e.data := by rw [← hie]
            subst hiv
            rw [List.getElem?_set_self helen, hxd]
          · left
            rw [hinfs] at hm
            simp only [List.mem_append, List.mem_cons] at hm ⊢
            tauto
        · by_cases hiv : i = e.value
          · right
            have hxd : x = e.data := by
              rw [hiv] at hx
              rw [hx] at hedata
              exact (Option.some.injEq _ _ ▸ hedata)
            subst hiv
            rw [List.getElem?_set_self helen, hxd]
          · right
            rw [List.getElem?_set_ne (fun hvv => hiv hvv.symm), hri]
    · intro ev hev
      simp only [List.mem_append, List.mem_singleton] at hev
      rcases hev with hev | hev
      · exact htr ev hev
      · subst hev
        right
        exact ⟨e.data, mem_of_getElem?_some hedata, rfl⟩
  | cancel hc =>
    exact ⟨⟨k, hk, hel, hinf, r, hres, hrlen, hcov⟩, htr⟩

/-- Both invariants hold at every state reachable from the start of a
collecting `execute` (regardless of whether the context was cancelled
before the call). -/
theorem ginv_reachable {α ε : Type} {h : MessageHandleFunc α ε} {inputs : List α}
    {c₀ : Bool} {s : ExecState α ε}
    (hr : GReachable h true (groupInitState true c₀ inputs) s) :
    GInv h inputs s ∧ GTraceInv h inputs s := by
  induction hr with
  | refl =>
    constructor
    · refine ⟨0, Nat.zero_le _, rfl, ?_, List.replicate inputs.length none, ?_, ?_, ?_⟩
      · intro e he
        simp [groupInitState] at he
      · simp [groupInitState]
      · simp
      · intro i x _ hik
        exact absurd hik (Nat.not_lt_zero i)
    · intro ev hev
      simp [groupInitState] at hev
  | tail _ hbc ih => exact ginv_step hbc ih.1 ih.2

/-- Pool accounting: `Get` calls always equal `Put` calls plus the
envelopes still in the slot array plus the envelopes in flight. -/
theorem gpool_reachable {α ε : Type} {h : MessageHandleFunc α ε} {collect c₀ : Bool}
    {inputs : List α} {s : ExecState α ε}
    (hr : GReachable h collect (groupInitState collect c₀ inputs) s) :
    s.poolGets = s.poolPuts + s.elements.length + s.inFlight.length := by
  induction hr with
  | refl => simp [groupInitState, makeElements_length]
  | tail _ hbc ih =>
    cases hbc with
    | claim e rest hc hels => simp_all; omega
    | finish e l₁ l₂ hinfs => simp_all; omega
    | cancel hc => simpa using ih

/-- Without result collection, the result slice stays nil. -/
theorem gresults_none {α ε : Type} {h : MessageHandleFunc α ε} {c₀ : Bool}
    {inputs : List α} {s : ExecState α ε}
    (hr : GReachable h false (groupInitState false c₀ inputs) s) :
    s.results = none := by
  induction hr with
  | refl => simp [groupInitState]
  | tail _ hbc ih =>
    cases hbc with
    | claim e rest hc hels => simpa using ih
    | finish e l₁ l₂ hinfs => simpa using ih
    | cancel hc => simpa using ih

/-- At the end of a collecting, uncancelled run, the result slice has the
input's length and holds, at every index, the handler's result for that
input element. -/
theorem gfinal_results {α ε : Type} {h : MessageHandleFunc α ε}
    {inputs : List α} {s : ExecState α ε}
    (hr : GReachable h true (groupInitState true false inputs) s)
    (hd : ExecDone s) (hnc : s.cancelled = false) :
    ∃ r : List (Option α), s.results = some r ∧ r.length = inputs.length ∧
      ∀ (i : Nat) (x : α), inputs[i]? = some x → r[i]? = some (some (h x).1) := by
  obtain ⟨⟨k, hk, hel, _, r, hres, hrlen, hcov⟩, _⟩ := ginv_reachable hr
  obtain ⟨hif, hcase⟩ := hd
  have hels : s.elements = [] := by
    rcases hcase with hcase | hcase
    · rw [hnc] at hcase
      exact absurd hcase (by simp)
    · exact hcase
  have hkN : k = inputs.length := by
    rw [hels] at hel
    have := makeElements_eq_nil hel.symm
    have := List.drop_eq_nil_iff.mp this
    omega
  refine ⟨r, hres, hrlen, ?_⟩
  intro i x hx
  have hilt : i < inputs.length := by
    obtain ⟨hlt, _⟩ := List.getElem?_eq_some.mp hx
    exact hlt
  rcases hcov i x hx (hkN ▸ hilt) with hm | hri
  · rw [hif] at hm
    exact absurd hm (List.not_mem_nil _)
  · exact hri

/-- The sequential schedule (one worker claiming and finishing the front
element repeatedly) is one of the runs of the step system. -/
theorem seqRun_reachable {α ε : Type} (h : MessageHandleFunc α ε) (collect : Bool)
    (fuel : Nat) :
    ∀ (s : ExecState α ε), s.cancelled = false → s.inFlight = [] →
      GReachable h collect s (seqRun h collect fuel s) ∧
      (seqRun h collect fuel s).cancelled = false ∧
      (seqRun h collect fuel s).inFlight = [] ∧
      (s.elements.length ≤ fuel → (seqRun h collect fuel s).elements = []) := by
  induction fuel with
  | zero =>
    intro s hc hf
    refine ⟨Relation.ReflTransGen.refl, hc, hf, ?_⟩
    intro hlen
    exact List.length_eq_zero.mp (Nat.le_zero.mp hlen)
  | succ fuel ih =>
    intro s hc hf
    cases hels : s.elements with
    | nil =>
      have hstop : seqRun h collect (fuel + 1) s = s := by
        simp only [seqRun, hels]
      rw [hstop]
      exact ⟨Relation.ReflTransGen.refl, hc, hf, fun _ => hels⟩
    | cons e rest =>
      have hstep : seqRun h collect (fuel + 1) s =
          seqRun h collect fuel (seqNext h collect s e rest) := by
        simp only [seqRun, hels]
      rw [hstep]
      have hc2 : (seqNext h collect s e rest).cancelled = false := hc
      have hf2 : (seqNext h collect s e rest).inFlight = [] := by
        simp [seqNext, hf]
      obtain ⟨hre, hc3, hif3, helems⟩ := ih (seqNext h collect s e rest) hc2 hf2
      refine ⟨?_, hc3, hif3, ?_⟩
      · refine Relation.ReflTransGen.head (GStep.claim s e rest hc hels) ?_
        exact Relation.ReflTransGen.head
          (GStep.finish { s with
              elements := rest
              inFlight := s.inFlight ++ [e]
              trace := s.trace ++ [Event.onBefore e.data] } e s.inFlight [] rfl) hre
      · intro hlen
        apply helems
        show rest.length ≤ fuel
        simp only [hels, List.length_cons] at hlen
        omega

/-- After cancellation, with nothing in flight, no step is possible: in
particular no element is ever claimed (the Go `select` never takes the
`default` branch while `ctx.Done()` is ready). -/
theorem gstep_none_of_cancelled {α ε : Type} {h : MessageHandleFunc α ε}
    {collect : Bool} {s t : ExecState α ε}
    (hc : s.cancelled = true) (hf : s.inFlight = []) (hst : GStep h collect s t) :
    False := by
  cases hst with
  | claim e rest hcf hels => rw [hc] at hcf; exact Bool.noConfusion hcf
  | finish e l₁ l₂ hinfs =>
    rw [hf] at hinfs
    exact absurd hinfs.symm (List.append_ne_nil_of_right_ne_nil _ (List.cons_ne_nil _ _))
  | cancel hcf => rw [hc] at hcf; exact Bool.noConfusion hcf

/-- A run that starts cancelled (with nothing in flight) stays put. -/
theorem greachable_cancelled_fixed {α ε : Type} {h : MessageHandleFunc α ε}
    {collect : Bool} {s t : ExecState α ε}
    (hc : s.cancelled = true) (hf : s.inFlight = [])
    (hr : GReachable h collect s t) : t = s := by
  induction hr with
  | refl => rfl
  | tail _ hbc ih =>
    rw [ih] at hbc
    exact absurd hbc (fun hst => gstep_none_of_cancelled hc hf hst)

/-! ## Helper lemmas: the worker cohort protocol -/

/-- Counting invariant of the scaling protocol: `runningCount` equals the
live executors (in their loop or exiting) plus the provisional increments
awaiting rollback, and it never exceeds `num` by more than those pending
rollbacks.  Hence the number of live executors never exceeds `num`. -/
theorem cohort_invariant {num : Int} (hnum : 1 ≤ num) {s : CohortState}
    (hr : CReachable num cohortInit s) :
    s.count = (s.workers : Int) + s.exiting + s.atRollback ∧
      s.count ≤ num + s.atRollback := by
  induction hr with
  | refl =>
    constructor
    · decide
    · show (1 : Int) ≤ num + ((0 : Nat) : Int)
      omega
  | tail _ hbc ih =>
    obtain ⟨ih1, ih2⟩ := ih
    cases hbc with
    | startSubmit => dsimp only; omega
    | preCheckFail h1 h2 => dsimp only; omega
    | preCheckOk h1 h2 => dsimp only; omega
    | allowFail h1 h2 => dsimp only; omega
    | allowOk h1 h2 => dsimp only; omega
    | refill h1 => dsimp only; omega
    | addSpawn h1 h2 => dsimp only; omega
    | addOver h1 h2 => dsimp only; omega
    | rollback h1 => dsimp only; omega
    | decayCheck h1 h2 => dsimp only; omega
    | decayDone h1 => dsimp only; omega

/-! ## Helper lemmas: configuration normalisation components -/

theorem normalizeConfig_num {α ε κ : Type} (c : Config α ε κ) :
    (normalizeConfig c).num =
      if c.num ≤ 0 ∨ c.num > defaultMaxWorkerNum then defaultMinWorkerNum else c.num := by
  unfold normalizeConfig
  by_cases h1 : c.num ≤ 0 ∨ c.num > defaultMaxWorkerNum <;>
    by_cases h2 : c.callback.isNone = true <;>
      by_cases h3 : c.handleFunc.isNone = true <;>
        simp [h1, h2, h3]

theorem normalizeConfig_callback {α ε κ : Type} (c : Config α ε κ) :
    (normalizeConfig c).callback =
      if c.callback.isNone then some CallbackSlot.emptyCallback else c.callback := by
  unfold normalizeConfig
  by_cases h1 : c.num ≤ 0 ∨ c.num > defaultMaxWorkerNum <;>
    by_cases h2 : c.callback.isNone = true <;>
      by_cases h3 : c.handleFunc.isNone = true <;>
        simp [h1, h2, h3]

theorem normalizeConfig_handleFunc {α ε κ : Type} (c : Config α ε κ) :
    (normalizeConfig c).handleFunc =
      if c.handleFunc.isNone then some DefaultMsgHandleFunc else c.handleFunc := by
  unfold normalizeConfig
  by_cases h1 : c.num ≤ 0 ∨ c.num > defaultMaxWorkerNum <;>
    by_cases h2 : c.callback.isNone = true <;>
      by_cases h3 : c.handleFunc.isNone = true <;>
        simp [h1, h2, h3]

theorem normalizeConfig_result {α ε κ : Type} (c : Config α ε κ) :
    (normalizeConfig c).result = c.result := by
  unfold normalizeConfig
  by_cases h1 : c.num ≤ 0 ∨ c.num > defaultMaxWorkerNum <;>
    by_cases h2 : c.callback.isNone = true <;>
      by_cases h3 : c.handleFunc.isNone = true <;>
        simp [h1, h2, h3]

/-! ## Claim theorems -/

/-- C1: for every input of length N, a complete uncancelled run of `Map`
on a group with result collection set returns a sequence of exactly
length N in which position `i` holds the handler's return for input
element `i`; with result collection unset, every run returns the
nil/absent sequence. -/
theorem C1_map_length_and_order {α ε : Type} (h : MessageHandleFunc α ε)
    (inputs : List α) (s t : ExecState α ε)
    (hr : GReachable h true (groupInitState true false inputs) s)
    (hd : ExecDone s) (hnc : s.cancelled = false)
    (hrt : GReachable h false (groupInitState false false inputs) t) :
    (∃ r : List (Option α), executeResult s = some r ∧ r.length = inputs.length ∧
      ∀ (i : Nat) (x : α), inputs[i]? = some x → r[i]? = some (some (h x).1)) ∧
    executeResult t = none :=
  ⟨gfinal_results hr hd hnc, gresults_none hrt⟩

/-- Witness for C1: handler doubling the input, on `[3, 5, 2]`, under the
sequential schedule. -/
theorem C1_map_length_and_order_witness :
    (∃ r : List (Option Int),
        executeResult (seqRun (α := Int) (ε := Unit) (fun x => (2 * x, none)) true 3
          (groupInitState true false [3, 5, 2])) = some r ∧
        r.length = 3 ∧
        ∀ (i : Nat) (x : Int), [(3 : Int), 5, 2][i]? = some x →
          r[i]? = some (some (2 * x))) ∧
    executeResult (seqRun (α := Int) (ε := Unit) (fun x => (2 * x, none)) false 3
      (groupInitState false false [3, 5, 2])) = none := by
  obtain ⟨hre, hc2, hif2, helems⟩ :=
    seqRun_reachable (α := Int) (ε := Unit) (fun x => (2 * x, none)) true 3
      (groupInitState true false [3, 5, 2]) rfl rfl
  obtain ⟨hret, _, _, _⟩ :=
    seqRun_reachable (α := Int) (ε := Unit) (fun x => (2 * x, none)) false 3
      (groupInitState false false [3, 5, 2]) rfl rfl
  exact C1_map_length_and_order (fun x => (2 * x, none)) [3, 5, 2] _ _
    hre ⟨hif2, Or.inr (helems (by decide))⟩ hc2 hret

/-- C5: when the handler returns both a result and a non-nil error for
some element, that result is still stored at the element's index in the
collected sequence; every other element's entry is likewise the handler's
return (no sibling is aborted or altered), and errors appear only in
`OnAfter` callback events — the sequence `Map` returns carries no error. -/
theorem C5_handler_error_result_stored {α ε : Type} (h : MessageHandleFunc α ε)
    (inputs : List α) (i : Nat) (x res : α) (er : ε) (s : ExecState α ε)
    (hx : inputs[i]? = some x) (hhx : h x = (res, some er))
    (hr : GReachable h true (groupInitState true false inputs) s)
    (hd : ExecDone s) (hnc : s.cancelled = false) :
    ∃ r : List (Option α), executeResult s = some r ∧
      r[i]? = some (some res) ∧
      (∀ (j : Nat) (y : α), inputs[j]? = some y → r[j]? = some (some (h y).1)) ∧
      ∀ ev ∈ s.trace, ev.err ≠ none →
        ∃ z, z ∈ inputs ∧ ev = Event.onAfter z (h z).1 (h z).2 := by
  obtain ⟨r, hsr, hlen, hall⟩ := gfinal_results hr hd hnc
  obtain ⟨_, htr⟩ := ginv_reachable hr
  refine ⟨r, hsr, ?_, hall, ?_⟩
  · have hri := hall i x hx
    rw [hhx] at hri
    simpa using hri
  · intro ev hev herr
    rcases htr ev hev with ⟨z, hz, hevb⟩ | ⟨z, hz, heva⟩
    · subst hevb
      simp [Event.err] at herr
    · exact ⟨z, hz, heva⟩

/-- Witness for C5: handler `x ↦ (x + 1, error iff x = 5)` on `[4, 5, 6]`
with the erroring element at index 1, under the sequential schedule. -/
theorem C5_handler_error_result_stored_witness :
    ∃ r : List (Option Int),
      executeResult (seqRun (α := Int) (ε := Nat)
          (fun x => (x + 1, if x = 5 then some 0 else none)) true 3
          (groupInitState true false [4, 5, 6])) = some r ∧
      r[1]? = some (some 6) ∧
      (∀ (j : Nat) (y : Int), [(4 : Int), 5, 6][j]? = some y →
        r[j]? = some (some (((fun x => (x + 1, if x = 5 then some 0 else none)) y).1))) ∧
      ∀ ev ∈ (seqRun (α := Int) (ε := Nat)
          (fun x => (x + 1, if x = 5 then some 0 else none)) true 3
          (groupInitState true false [4, 5, 6])).trace, ev.err ≠ none →
        ∃ z, z ∈ [(4 : Int), 5, 6] ∧
          ev = Event.onAfter z (((fun x => (x + 1, if x = 5 then some 0 else none)) z).1)
            (((fun x => (x + 1, if x = 5 then some 0 else none)) z).2) := by
  obtain ⟨hre, hc2, hif2, helems⟩ :=
    seqRun_reachable (α := Int) (ε := Nat)
      (fun x => (x + 1, if x = 5 then some 0 else none)) true 3
      (groupInitState true false [4, 5, 6]) rfl rfl
  exact C5_handler_error_result_stored (fun x => (x + 1, if x = 5 then some 0 else none))
    [4, 5, 6] 1 5 6 0 _ (by decide) (by decide)
    hre ⟨hif2, Or.inr (helems (by decide))⟩ hc2

/-- C6 (divergence between code and claim/test): after `Stop`, a `Map`
call on a group with result collection set does not return the nil/empty
sequence.  The cancelled context lets no worker claim anything — the
start state of `execute` is already terminal and admits no step — but the
result slice has already been allocated, so `Map([3, 4])` returns a
length-2 sequence of nils, while the claim (and the repository's own
`TestGroup_Map_AfterStop`, which asserts nil) expects an absent sequence. -/
theorem C6_map_after_stop_returns_allocated_slice :
    (∀ s : ExecState Int Unit,
        GReachable DefaultMsgHandleFunc true (groupInitState true true [3, 4]) s →
          s = groupInitState true true [3, 4]) ∧
    ExecDone (groupInitState (α := Int) (ε := Unit) true true [3, 4]) ∧
    executeResult (groupInitState (α := Int) (ε := Unit) true true [3, 4]) =
      some [none, none] ∧
    some [none, none] ≠ (none : Option (List (Option Int))) := by
  refine ⟨?_, ⟨rfl, Or.inl rfl⟩, rfl, by decide⟩
  intro s hr
  exact greachable_cancelled_fixed rfl rfl hr

/-- Witness for C6: the terminal state of the after-`Stop` run evaluated
at the start state itself. -/
theorem C6_map_after_stop_witness :
    groupInitState (α := Int) (ε := Unit) true true [3, 4] =
      groupInitState true true [3, 4] :=
  C6_map_after_stop_returns_allocated_slice.1 _ Relation.ReflTransGen.refl

/-- C7 counterexample: a run in which `Stop` cancels before any element
is dispatched.  Both envelopes were drawn from the pool by `prepare`, no
`Put` ever happens — the shutdown path truncates the slot array without
pool-returning the remaining envelopes — so the net pool balance is 2,
not 0. -/
theorem C7_counter_cancelled_run_leaks :
    GReachable (DefaultMsgHandleFunc (α := Int) (ε := Unit)) true
      (groupInitState true false [3, 4])
      { groupInitState (α := Int) (ε := Unit) true false [3, 4] with cancelled := true } ∧
    ExecDone { groupInitState (α := Int) (ε := Unit) true false [3, 4] with
      cancelled := true } ∧
    ({ groupInitState (α := Int) (ε := Unit) true false [3, 4] with
      cancelled := true }).poolGets = 2 ∧
    ({ groupInitState (α := Int) (ε := Unit) true false [3, 4] with
      cancelled := true }).poolPuts = 0 :=
  ⟨Relation.ReflTransGen.single (GStep.cancel _ rfl), ⟨rfl, Or.inl rfl⟩, rfl, rfl⟩

/-- C7 (amended): pool `Get`s always equal pool `Put`s plus the envelopes
still in the slot array plus those in flight; consequently a completed
uncancelled `Map` has net pool balance zero, while a cancelled run leaves
the balance equal to the number of undispatched envelopes, which the
shutdown path drops (truncating the slot array under the mutex) without
returning them to the pool. -/
theorem C7_pool_accounting {α ε : Type} {h : MessageHandleFunc α ε}
    {collect c₀ : Bool} {inputs : List α} {s : ExecState α ε}
    (hr : GReachable h collect (groupInitState collect c₀ inputs) s) :
    s.poolGets = s.poolPuts + s.elements.length + s.inFlight.length ∧
    (ExecDone s → s.cancelled = false → s.poolGets = s.poolPuts) := by
  have hacc := gpool_reachable hr
  refine ⟨hacc, ?_⟩
  intro hd hnc
  obtain ⟨hif, hcase⟩ := hd
  have hels : s.elements = [] := by
    rcases hcase with hcase | hcase
    · rw [hnc] at hcase
      exact absurd hcase (by simp)
    · exact hcase
  rw [hels, hif] at hacc
  simpa using hacc

/-- Witness for C7 (amended): the completed sequential run on `[7]`. -/
theorem C7_pool_accounting_witness :
    (seqRun (α := Int) (ε := Unit) DefaultMsgHandleFunc true 1
        (groupInitState true false [7])).poolGets =
      (seqRun (α := Int) (ε := Unit) DefaultMsgHandleFunc true 1
        (groupInitState true false [7])).poolPuts +
      (seqRun (α := Int) (ε := Unit) DefaultMsgHandleFunc true 1
        (groupInitState true false [7])).elements.length +
      (seqRun (α := Int) (ε := Unit) DefaultMsgHandleFunc true 1
        (groupInitState true false [7])).inFlight.length ∧
    (ExecDone (seqRun (α := Int) (ε := Unit) DefaultMsgHandleFunc true 1
        (groupInitState true false [7])) →
      (seqRun (α := Int) (ε := Unit) DefaultMsgHandleFunc true 1
        (groupInitState true false [7])).cancelled = false →
      (seqRun (α := Int) (ε := Unit) DefaultMsgHandleFunc true 1
        (groupInitState true false [7])).poolGets =
        (seqRun (α := Int) (ε := Unit) DefaultMsgHandleFunc true 1
          (groupInitState true false [7])).poolPuts) := by
  obtain ⟨hre, _, _, _⟩ :=
    seqRun_reachable (α := Int) (ε := Unit) DefaultMsgHandleFunc true 1
      (groupInitState true false [7]) rfl rfl
  exact C7_pool_accounting hre

/-- C2: every submission operation (`Submit`, `SubmitWithFunc`,
`SubmitAfter`, `SubmitAfterWithFunc`) returns the single distinguished
`ErrorQueueClosed` value when the queue is closed at submission time; and
whenever the queue's put (or put-with-delay) fails, the freshly drawn
envelope is returned to the pool with all fields — including the per-task
handler slot — cleared, the queue's error is propagated verbatim, and no
other pipeline state changes (`runningCount`, tokens and workers are
untouched, `tryCreateExecutor` is not reached). -/
theorem C2_submit_error_paths {α ε : Type} (num : Int) (st : PipelineState α ε)
    (q : QueueBehavior ε) (fn : Option (MessageHandleFunc α ε)) (msg : α)
    (delay : Int) (e : ε) :
    (q.isClosed = true →
      Pipeline.Submit num st q msg = (some ErrorQueueClosed, st) ∧
      Pipeline.SubmitWithFunc num st q fn msg = (some ErrorQueueClosed, st) ∧
      Pipeline.SubmitAfter num st q msg delay = (some ErrorQueueClosed, st) ∧
      Pipeline.SubmitAfterWithFunc num st q fn msg delay = (some ErrorQueueClosed, st)) ∧
    (q.isClosed = false →
      (if delay > 0 then q.putWithDelayErr else q.putErr) = some e →
      Pipeline.submit num st q fn msg delay =
        (some (PipelineError.queueErr e),
          { st with elementPool :=
              { gets := st.elementPool.gets + 1
                puts := st.elementPool.puts + 1
                stored := { data := none, value := 0, fn := none } ::
                  (st.elementPool.Get).1.stored } })) := by
  constructor
  · intro hcl
    refine ⟨?_, ?_, ?_, ?_⟩ <;>
      simp [Pipeline.Submit, Pipeline.SubmitWithFunc, Pipeline.SubmitAfter,
        Pipeline.SubmitAfterWithFunc, Pipeline.submit, hcl, ErrorQueueClosed]
  · intro hcl herr
    cases hst : st.elementPool.stored with
    | nil =>
      simp [Pipeline.submit, hcl, herr, ElementExtPool.Get, ElementExtPool.Put,
        ElementExt.Reset, hst]
    | cons e₀ rest =>
      simp [Pipeline.submit, hcl, herr, ElementExtPool.Get, ElementExtPool.Put,
        ElementExt.Reset, hst]

/-- Witness for C2: a closed queue rejects `Submit`, and an open queue
whose `Put` fails leaves only the pool counters changed, with the
envelope stored back cleared. -/
theorem C2_submit_error_paths_witness :
    (Pipeline.Submit (α := Int) (ε := Nat) 1
        { elementPool := { gets := 0, puts := 0, stored := [] }
          runningCount := 1, tokens := 8, liveWorkers := 1 }
        { isClosed := true, putErr := none, putWithDelayErr := none } 5 =
      (some ErrorQueueClosed,
        { elementPool := { gets := 0, puts := 0, stored := [] }
          runningCount := 1, tokens := 8, liveWorkers := 1 })) ∧
    (Pipeline.submit (α := Int) (ε := Nat) 1
        { elementPool := { gets := 0, puts := 0, stored := [] }
          runningCount := 1, tokens := 8, liveWorkers := 1 }
        { isClosed := false, putErr := some 9, putWithDelayErr := none } none 5 0 =
      (some (PipelineError.queueErr 9),
        { elementPool := { gets := 1, puts := 1
                           stored := [{ data := none, value := 0, fn := none }] }
          runningCount := 1, tokens := 8, liveWorkers := 1 })) := by
  constructor
  · exact (C2_submit_error_paths 1
      { elementPool := { gets := 0, puts := 0, stored := [] }
        runningCount := 1, tokens := 8, liveWorkers := 1 }
      { isClosed := true, putErr := none, putWithDelayErr := none }
      none 5 0 9).1 rfl |>.1
  · exact (C2_submit_error_paths 1
      { elementPool := { gets := 0, puts := 0, stored := [] }
        runningCount := 1, tokens := 8, liveWorkers := 1 }
      { isClosed := false, putErr := some 9, putWithDelayErr := none }
      none 5 0 9).2 rfl (by decide)

/-- C3 counterexample: with `worker_count = 2`, two concurrent submitters
can both pass the pre-check and both take the provisional increment; in
the window before the loser's rollback, `GetWorkerNumber` (the observed
worker count) reads 3 > 2.  The claim "the observed worker count never
exceeds the configured worker_count" is therefore false as stated. -/
theorem C3_counter_observed_count_exceeds :
    CReachable 2 cohortInit
      { count := 3, workers := 2, exiting := 0, tokens := 6
        atPre := 0, atAllow := 0, atAdd := 0, atRollback := 1 } ∧
    GetWorkerNumber { count := 3, workers := 2, exiting := 0, tokens := 6,
                      atPre := 0, atAllow := 0, atAdd := 0, atRollback := 1 } = 3 ∧
    2 < GetWorkerNumber { count := 3, workers := 2, exiting := 0, tokens := 6,
                          atPre := 0, atAllow := 0, atAdd := 0, atRollback := 1 } := by
  refine ⟨?_, rfl, by decide⟩
  exact Relation.ReflTransGen.tail (Relation.ReflTransGen.tail (Relation.ReflTransGen.tail
    (Relation.ReflTransGen.tail (Relation.ReflTransGen.tail (Relation.ReflTransGen.tail
      (Relation.ReflTransGen.tail (Relation.ReflTransGen.tail Relation.ReflTransGen.refl
        (CStep.startSubmit _))
        (CStep.startSubmit _))
      (CStep.preCheckOk _ (by decide) (by decide)))
      (CStep.preCheckOk _ (by decide) (by decide)))
    (CStep.allowOk _ (by decide) (by decide)))
    (CStep.allowOk _ (by decide) (by decide)))
    (CStep.addSpawn _ (by decide) (by decide)))
    (CStep.addOver _ (by decide) (by decide))

/-- C3 (amended): a submission spawns at most one additional worker, and
only under the stated conditions; the number of live executor workers
(looping or exiting) never exceeds the configured `worker_count`, and
`runningCount` exceeds it only by the in-flight provisional increments
that are about to be rolled back — so `GetWorkerNumber` can transiently
read `worker_count + 1` during a submitter's double-check window, but no
extra worker ever runs. -/
theorem C3_worker_ceiling {num : Int} (hnum : 1 ≤ num) {s : CohortState}
    (hr : CReachable num cohortInit s) :
    (s.workers : Int) + s.exiting ≤ num ∧
      s.count = (s.workers : Int) + s.exiting + s.atRollback ∧
      s.count ≤ num + s.atRollback := by
  obtain ⟨h1, h2⟩ := cohort_invariant hnum hr
  exact ⟨by omega, h1, h2⟩

/-- Witness for C3 (amended), at `worker_count = 2` and the construction
state. -/
theorem C3_worker_ceiling_witness :
    ((cohortInit.workers : Int) + cohortInit.exiting ≤ 2) ∧
      cohortInit.count = (cohortInit.workers : Int) + cohortInit.exiting +
        cohortInit.atRollback ∧
      cohortInit.count ≤ 2 + cohortInit.atRollback :=
  C3_worker_ceiling (by decide) Relation.ReflTransGen.refl

/-- C4 (floor violation, contradicting the README's documented floor of
one worker): with `worker_count = 2`, one submission spawns a second
executor; both executors then sit idle past the timeout and both pass the
decay check `runningCount > 1` before either deferred decrement runs, so
both exit.  The state with `runningCount = 0` and no live workers is
reachable, refuting "the observed worker count is always at least 1 /
exactly one worker always remains alive". -/
theorem C4_counter_floor_violation :
    CReachable 2 cohortInit
      { count := 0, workers := 0, exiting := 0, tokens := 7
        atPre := 0, atAllow := 0, atAdd := 0, atRollback := 0 } ∧
    GetWorkerNumber { count := 0, workers := 0, exiting := 0, tokens := 7,
                      atPre := 0, atAllow := 0, atAdd := 0, atRollback := 0 } = 0 ∧
    GetWorkerNumber { count := 0, workers := 0, exiting := 0, tokens := 7,
                      atPre := 0, atAllow := 0, atAdd := 0, atRollback := 0 } < 1 := by
  refine ⟨?_, rfl, by decide⟩
  exact Relation.ReflTransGen.tail (Relation.ReflTransGen.tail (Relation.ReflTransGen.tail
    (Relation.ReflTransGen.tail (Relation.ReflTransGen.tail (Relation.ReflTransGen.tail
      (Relation.ReflTransGen.tail (Relation.ReflTransGen.tail Relation.ReflTransGen.refl
        (CStep.startSubmit _))
        (CStep.preCheckOk _ (by decide) (by decide)))
      (CStep.allowOk _ (by decide) (by decide)))
      (CStep.addSpawn _ (by decide) (by decide)))
    (CStep.decayCheck _ (by decide) (by decide)))
    (CStep.decayCheck _ (by decide) (by decide)))
    (CStep.decayDone _ (by decide)))
    (CStep.decayDone _ (by decide))

/-- C8: the default handler installed when no handler is configured (a
nil handler field, or a nil config whose default carries it) is the
identity: for every message it returns the message itself and a nil
error. -/
theorem C8_default_handler_identity {α ε κ : Type} (c : Config α ε κ)
    (hc : c.handleFunc = none) :
    (isConfigValid (some c)).handleFunc = some DefaultMsgHandleFunc ∧
    (isConfigValid (none : Option (Config α ε κ))).handleFunc =
      some DefaultMsgHandleFunc ∧
    ∀ msg : α, (DefaultMsgHandleFunc (ε := ε)) msg = (msg, none) := by
  refine ⟨?_, rfl, fun msg => rfl⟩
  show (normalizeConfig c).handleFunc = some DefaultMsgHandleFunc
  rw [normalizeConfig_handleFunc, hc]
  rfl

/-- Witness for C8 at the config with every field nil/zero. -/
theorem C8_default_handler_identity_witness :
    (isConfigValid (some (⟨0, none, false, none⟩ : Config Int Unit Unit))).handleFunc =
      some DefaultMsgHandleFunc ∧
    (isConfigValid (none : Option (Config Int Unit Unit))).handleFunc =
      some DefaultMsgHandleFunc ∧
    ∀ msg : Int, (DefaultMsgHandleFunc (ε := Unit)) msg = (msg, none) :=
  C8_default_handler_identity ⟨0, none, false, none⟩ rfl

/-- C9: at core construction, a worker count outside `[1, 524280]`
(including zero and negative values) is silently replaced by the default
worker count (`defaultMinWorkerNum = 1`, also the default config's worker
count), an in-range worker count is kept; a nil callback is replaced by
the no-op callback pair, a nil handler by the default handler, and a nil
configuration by the full default configuration. -/
theorem C9_config_validation {α ε κ : Type} (c : Config α ε κ) :
    (defaultMaxWorkerNum = 524280 ∧ defaultMinWorkerNum = 1 ∧
      (DefaultConfig : Config α ε κ).num = defaultMinWorkerNum) ∧
    ((c.num ≤ 0 ∨ c.num > defaultMaxWorkerNum) →
      (isConfigValid (some c)).num = defaultMinWorkerNum) ∧
    (¬(c.num ≤ 0 ∨ c.num > defaultMaxWorkerNum) →
      (isConfigValid (some c)).num = c.num) ∧
    (c.callback = none →
      (isConfigValid (some c)).callback = some CallbackSlot.emptyCallback) ∧
    (c.handleFunc = none →
      (isConfigValid (some c)).handleFunc = some DefaultMsgHandleFunc) ∧
    isConfigValid (none : Option (Config α ε κ)) = DefaultConfig := by
  refine ⟨⟨by decide, rfl, rfl⟩, ?_, ?_, ?_, ?_, rfl⟩
  · intro hnum
    show (normalizeConfig c).num = _
    rw [normalizeConfig_num, if_pos hnum]
  · intro hnum
    show (normalizeConfig c).num = _
    rw [normalizeConfig_num, if_neg hnum]
  · intro hcb
    show (normalizeConfig c).callback = _
    rw [normalizeConfig_callback, hcb]
    rfl
  · intro hh
    show (normalizeConfig c).handleFunc = _
    rw [normalizeConfig_handleFunc, hh]
    rfl

/-- Witness for C9 at a config whose worker count 600000 exceeds the
maximum, with nil callback and handler. -/
theorem C9_config_validation_witness :
    (isConfigValid (some (⟨600000, none, true, none⟩ : Config Int Unit Unit))).num =
      defaultMinWorkerNum ∧
    (isConfigValid (some (⟨600000, none, true, none⟩ : Config Int Unit Unit))).callback =
      some CallbackSlot.emptyCallback ∧
    (isConfigValid (some (⟨600000, none, true, none⟩ : Config Int Unit Unit))).handleFunc =
      some DefaultMsgHandleFunc :=
  ⟨(C9_config_validation ⟨600000, none, true, none⟩).2.1 (by decide),
   (C9_config_validation ⟨600000, none, true, none⟩).2.2.2.1 rfl,
   (C9_config_validation ⟨600000, none, true, none⟩).2.2.2.2.1 rfl⟩

/-- C10: configuration validation mutates the caller's configuration
object in place and the core shares it: for every non-nil config
reference, the reference returned by `isConfigValid` is the caller's own,
the pointee is overwritten with its normalisation (so the caller's object
observably changes when fields were invalid), `NewGroup` and
`NewPipeline` retain that same reference, and all valid fields (in-range
worker count, non-nil callback, non-nil handler, the result flag) are
left unchanged. -/
theorem C10_config_mutated_in_place_and_shared {α ε κ : Type}
    (hp : ConfigHeap α ε κ) (c : Config α ε κ) (i : Nat) (hi : hp[i]? = some c) :
    (isConfigValidRef hp (some i)).2 = i ∧
    ((isConfigValidRef hp (some i)).1)[i]? = some (normalizeConfig c) ∧
    ((NewGroupRef hp (some i)).2).configRef = i ∧
    NewPipelineRef (some ()) hp (some i) =
      some ((isConfigValidRef hp (some i)).1, ⟨i⟩) ∧
    (1 ≤ c.num ∧ c.num ≤ defaultMaxWorkerNum → (normalizeConfig c).num = c.num) ∧
    (∀ cb, c.callback = some cb → (normalizeConfig c).callback = some cb) ∧
    (∀ f, c.handleFunc = some f → (normalizeConfig c).handleFunc = some f) ∧
    (normalizeConfig c).result = c.result := by
  have hgd : hp.getD i DefaultConfig = c := by
    rw [List.getD_eq_getElem?_getD, hi]
    rfl
  have hilt : i < hp.length := (List.getElem?_eq_some.mp hi).1
  refine ⟨rfl, ?_, rfl, rfl, ?_, ?_, ?_, normalizeConfig_result c⟩
  · show (hp.set i (normalizeConfig (hp.getD i DefaultConfig)))[i]? = _
    rw [hgd]
    exact List.getElem?_set_self hilt
  · intro hnum
    rw [normalizeConfig_num, if_neg (by omega)]
  · intro cb hcb
    rw [normalizeConfig_callback, hcb]
    rfl
  · intro f hf
    rw [normalizeConfig_handleFunc, hf]
    rfl

/-- Witness for C10 at a one-object heap holding a config with invalid
worker count and nil handler but a user callback. -/
theorem C10_config_mutated_witness :
    (isConfigValidRef (α := Int) (ε := Unit) (κ := Unit)
      [⟨0, some (CallbackSlot.user ()), true, none⟩] (some 0)).2 = 0 ∧
    ((isConfigValidRef (α := Int) (ε := Unit) (κ := Unit)
      [⟨0, some (CallbackSlot.user ()), true, none⟩] (some 0)).1)[0]? =
      some (normalizeConfig ⟨0, some (CallbackSlot.user ()), true, none⟩) ∧
    ((NewGroupRef (α := Int) (ε := Unit) (κ := Unit)
      [⟨0, some (CallbackSlot.user ()), true, none⟩] (some 0)).2).configRef = 0 ∧
    NewPipelineRef (some ()) [(⟨0, some (CallbackSlot.user ()), true, none⟩ :
        Config Int Unit Unit)] (some 0) =
      some ((isConfigValidRef [⟨0, some (CallbackSlot.user ()), true, none⟩]
        (some 0)).1, ⟨0⟩) ∧
    (1 ≤ (0 : Int) ∧ (0 : Int) ≤ defaultMaxWorkerNum →
      (normalizeConfig (⟨0, some (CallbackSlot.user ()), true, none⟩ :
        Config Int Unit Unit)).num = 0) ∧
    (∀ cb, some (CallbackSlot.user ()) = some cb →
      (normalizeConfig (⟨0, some (CallbackSlot.user ()), true, none⟩ :
        Config Int Unit Unit)).callback = some cb) ∧
    (∀ f, (none : Option (MessageHandleFunc Int Unit)) = some f →
      (normalizeConfig (⟨0, some (CallbackSlot.user ()), true, none⟩ :
        Config Int Unit Unit)).handleFunc = some f) ∧
    (normalizeConfig (⟨0, some (CallbackSlot.user ()), true, none⟩ :
      Config Int Unit Unit)).result = true :=
  C10_config_mutated_in_place_and_shared
    [⟨0, some (CallbackSlot.user ()), true, none⟩]
    ⟨0, some (CallbackSlot.user ()), true, none⟩ 0 rfl

end Karta
